import Mathlib

/-!
Verification of the PowerCore module (klippy/extras/powercore.py).

The module couples two PID feedback loops (a feedrate scaling loop driven by a
PWM duty cycle sensor and a wire tension loop driven by a load cell) with a
move segmentation algorithm and a motion coordinator.  Floats of the source are
embedded as rational numbers; the Python attribute `self.output`, which is not
assigned at construction time, is embedded as `Option`; operations that can
raise in Python return `Option` or are traced through `Except`.
-/

namespace PowerCore

/-- Floor of a rational, written out on the numerator and denominator so that
concrete instances evaluate inside the kernel. -/
def ratFloor (q : ℚ) : ℤ := q.num / q.den

/-- Ceiling of a rational, mirroring `math.ceil` of Python as used in
`split_move`. -/
def ratCeil (q : ℚ) : ℤ := -ratFloor (-q)

/-- Rounding of a rational to the nearest integer, ties to even, mirroring the
builtin `round` of Python used at `round(output * 255)`. -/
def pyRound (q : ℚ) : ℤ :=
  let f := ratFloor q
  if q - f < 1/2 then f
  else if q - f > 1/2 then f + 1
  else if f % 2 = 0 then f else f + 1

/-- Rounding to three decimal places, mirroring `round(x, 3)` of Python as used
on every intermediate coordinate in `split_move`. -/
def round3 (q : ℚ) : ℚ := (pyRound (q * 1000) : ℚ) / 1000

/-- Modelled from the spec: the shared PID controller state of section 4.1
(the source delegates to the external `simple_pid` library, which is not part
of the repository): gains, setpoint, output bounds, minimum sample period,
accumulated integral, last error, last sample timestamp and last output. -/
structure PIDState where
  kp : ℚ
  ki : ℚ
  kd : ℚ
  setpoint : ℚ
  outMin : ℚ
  outMax : ℚ
  sampleTime : ℚ
  integral : ℚ
  lastError : ℚ
  lastTime : Option ℚ
  lastOutput : Option ℚ
deriving DecidableEq

/-- Modelled from the spec: a freshly constructed PID controller (zero
integral and error history, no sample seen yet). -/
def mkPID (kp ki kd setpoint outMin outMax sampleTime : ℚ) : PIDState :=
  { kp := kp, ki := ki, kd := kd, setpoint := setpoint, outMin := outMin,
    outMax := outMax, sampleTime := sampleTime, integral := 0, lastError := 0,
    lastTime := none, lastOutput := none }

/-- Modelled from the spec: `reset()` zeroes the integral and the error
history, leaves setpoint, gains and bounds untouched and does not produce an
output (section 4.1). -/
def resetPID (p : PIDState) : PIDState :=
  { p with integral := 0, lastError := 0, lastTime := none, lastOutput := none }

/-- Clamping to the configured output bounds. -/
def clamp (x lo hi : ℚ) : ℚ := max lo (min x hi)

/-- Modelled from the spec: one non-throttled PID computation of section 4.1:
error, integral accumulation (stopped while the output saturates, the
anti-windup of the spec), guarded derivative, clamped output. -/
def pidCompute (p : PIDState) (sample now : ℚ) : PIDState × ℚ :=
  let dtRaw := match p.lastTime with
    | some t => now - t
    | none => p.sampleTime
  let dt := if dtRaw ≤ 0 then p.sampleTime else dtRaw
  let error := p.setpoint - sample
  let integral1 := p.integral + error * dt
  let derivative := (error - p.lastError) / dt
  let raw := p.kp * error + p.ki * integral1 + p.kd * derivative
  let output := clamp raw p.outMin p.outMax
  let integral2 := if raw = output then integral1 else p.integral
  let p2 : PIDState :=
    { p with
      integral := integral2
      lastError := error
      lastTime := some now
      lastOutput := some output }
  (p2, output)

/-- Modelled from the spec: calling the PID controller on a sample (the
`pid(sample)` call of the source).  Called again within the minimum sample
period it produces no new output and the previous output stays authoritative
(section 4.1); otherwise it computes a fresh clamped output. -/
def pidCall (p : PIDState) (sample now : ℚ) : PIDState × ℚ :=
  match p.lastTime, p.lastOutput with
  | some t, some o =>
      if now - t < p.sampleTime then (p, o) else pidCompute p sample now
  | some _, none => pidCompute p sample now
  | none, _ => pidCompute p sample now

/-- Configuration values read in `PowerCore.__init__`, with the default values
of the source. -/
structure Config where
  target_duty_cycle : ℚ := 3/4
  min_feedrate : ℚ := 6
  max_feedrate : ℚ := 120
  powercore_adjustment_accel : ℚ := 5000
  pid_kp : ℚ := 1/10
  pid_ki : ℚ := 0
  pid_kd : ℚ := 0
  alrt_sample_interval : ℚ := 1/10
  move_split_dist : ℚ := 1/10
  move_overlap_time : ℚ := 1/1000
  wire_pid_kp : ℚ := 1/10
  wire_pid_ki : ℚ := 0
  wire_pid_kd : ℚ := 0
  default_wire_tension_target : ℚ := 0
  load_cell_update_interval : ℚ := 1/10
  sender_is_primary : Bool := true
deriving DecidableEq

/-- The mutable state of a `PowerCore` object that the verified operations
touch.  `output` is `none` while the Python attribute `self.output` does not
exist (it is only ever assigned inside `pwm_in_callback`). -/
structure PowerCoreState where
  scaling_enabled : Bool
  output : Option ℚ
  target_duty_cycle : ℚ
  min_feedrate : ℚ
  max_feedrate : ℚ
  adjustment_accel : ℚ
  move_split_dist : ℚ
  move_overlap_time : ℚ
  feedrate_pid : PIDState
  wire_pid : PIDState
  wire_tension_loop_enabled : Bool
  sender_is_primary : Bool
deriving DecidableEq

/-- The state established by `PowerCore.__init__`: scaling disabled, no
`output` attribute yet, both PID controllers fresh with output limits (0, 1),
and the wire tension loop flag set to `True` (line 121 of the source). -/
def initState (cfg : Config) : PowerCoreState :=
  { scaling_enabled := false
    output := none
    target_duty_cycle := cfg.target_duty_cycle
    min_feedrate := cfg.min_feedrate
    max_feedrate := cfg.max_feedrate
    adjustment_accel := cfg.powercore_adjustment_accel
    move_split_dist := cfg.move_split_dist
    move_overlap_time := cfg.move_overlap_time
    feedrate_pid := mkPID cfg.pid_kp cfg.pid_ki cfg.pid_kd
      cfg.target_duty_cycle 0 1 cfg.alrt_sample_interval
    wire_pid := mkPID cfg.wire_pid_kp cfg.wire_pid_ki cfg.wire_pid_kd
      cfg.default_wire_tension_target 0 1 cfg.load_cell_update_interval
    wire_tension_loop_enabled := true
    sender_is_primary := cfg.sender_is_primary }

/-- A configuration holding every default value of the source. -/
def cfg0 : Config := {}

/-- One sub-move descriptor of `split_move`: `(start position, end position,
commanded speed)`.  The source keeps these as `[start_pos, end_pos, speed]`
lists turned into tuples on return. -/
structure SubMove where
  start : List ℚ
  stop : List ℚ
  speed : ℚ
deriving DecidableEq

/-- The end position one equal-length step away from `s` along the normalized
move vector `r`, every coordinate rounded to three decimals: the body of
`[round(start_pos[i] + (actual_move_length * v), 3) for i, v in
enumerate(move_vector)]`. -/
def stepEnd (actual : ℚ) (r s : List ℚ) : List ℚ :=
  List.zipWith (fun c v => round3 (c + actual * v)) s r

/-- The chain of `n` sub-moves built by `split_move` before the final end
override: the first starts at `s`, and each later one starts at the end of the
previous one (`start_pos = split_positions[-1][1]` in the source). -/
def segChain (actual : ℚ) (r : List ℚ) (speed : ℚ) : ℕ → List ℚ → List SubMove
  | 0, _ => []
  | n + 1, s =>
    { start := s, stop := stepEnd actual r s, speed := speed } ::
      segChain actual r speed n (stepEnd actual r s)

/-- Replacing the end position of the final sub-move by the exact requested
end position: `last_move[1] = move.end_pos` in the source. -/
def setLastEnd (e : List ℚ) : List SubMove → List SubMove
  | [] => []
  | [m] => [{ m with stop := e }]
  | m :: m2 :: rest => m :: setLastEnd e (m2 :: rest)

/-- Modelled from the spec: the predicate tying the displacement `d` and the
normalized move vector `r` that `toolhead.Move` (a collaborator outside this
module) computes to the start and end positions: `d` is the nonnegative
Euclidean displacement and `r` scaled by `d` recovers the coordinate deltas. -/
def IsMoveData (startPos endPos : List ℚ) (d : ℚ) (r : List ℚ) : Prop :=
  0 ≤ d ∧ d ^ 2 = ((List.zipWith (fun a b => (b - a) ^ 2) startPos endPos).sum) ∧
    List.zipWith (fun v c => d * v + c) r startPos = endPos

/-- The move segmentation of `PowerCore.split_move`.  `startPos` is the
current toolhead position, `d` and `r` are the displacement and the normalized
move vector of the constructed `Move`, and `L` is `move_split_dist`.  The
count is `math.ceil(move_dist / target_move_length)`; when that count is zero
(a zero-displacement move) the source raises `ZeroDivisionError` at
`move_dist / total_num_segments`, embedded as `none`.  A first segment is
always built, the loop then appends `count - 1` further segments, and the end
of the last one is overridden with the exact end position. -/
def split_move (startPos endPos : List ℚ) (d : ℚ) (r : List ℚ)
    (speed L : ℚ) : Option (List SubMove) :=
  let n : ℤ := ratCeil (d / L)
  if n = 0 then none
  else
    let actual := d / (n : ℚ)
    let count : ℕ := 1 + (n - 1).toNat
    some (setLastEnd endPos (segChain actual r speed count startPos))

/-- The two wire-feed actuators (`sender_wire_tool` and
`receiver_wire_tool`). -/
inductive Actuator where
  | sender
  | receiver
deriving DecidableEq

/-- Externally visible effects of the verified operations: sub-move
submissions to the toolhead, actuator speed commands, operator error text,
machine-wide events, look-ahead flushes and reactor pauses. -/
inductive Call where
  | toolheadMove (pos : List ℚ) (speed : ℚ)
  | setSpeed (which : Actuator) (speed : ℚ)
  | respondError (msg : String)
  | sendEvent (name : String)
  | flush
  | pause (t : ℚ)
deriving DecidableEq

/-- The calls emitted for one successfully executed sub-move of
`execute_moves`: submit the end position and speed to the toolhead, flush the
look-ahead queue, and pause until the recorded wake time when the look-ahead
callback fired with a truthy (non-zero) wake time. -/
def submitCalls (overlap : ℚ) (m : SubMove) (nextT : Option ℚ) : List Call :=
  Call.toolheadMove m.stop m.speed :: Call.flush ::
    (match nextT with
     | some t => if t - overlap = 0 then [] else [Call.pause (t - overlap)]
     | none => [])

/-- The wake time reported by the executor for a successful sub-move. -/
def okWake : Except String (Option ℚ) → Option ℚ
  | Except.ok t => t
  | Except.error _ => none

/-- `PowerCore.execute_moves`: pops sub-moves in order; each successful one is
submitted, flushed and optionally paced; the first command error aborts the
loop, reports the error text and sends the `gcode:command_error` event.  The
collaborating executor is abstracted as `exec`, returning the look-ahead
callback time on success or the command error text on failure. -/
def execute_moves (exec : SubMove → Except String (Option ℚ))
    (overlap : ℚ) : List SubMove → List Call
  | [] => []
  | m :: rest =>
    match exec m with
    | Except.ok nextT => submitCalls overlap m nextT ++ execute_moves exec overlap rest
    | Except.error e => [Call.respondError e, Call.sendEvent "gcode:command_error"]

/-- `PowerCore.move`: with scaling enabled, split the move and execute the
pieces; with scaling disabled, forward the request to the toolhead unchanged
as a single call.  `curPos`, `d` and `r` stand for the toolhead position and
the `Move` data used by `split_move`; `none` is the `ZeroDivisionError` of a
zero-displacement split. -/
def move (s : PowerCoreState) (curPos : List ℚ) (d : ℚ) (r : List ℚ)
    (exec : SubMove → Except String (Option ℚ)) (newpos : List ℚ)
    (speed : ℚ) : Option (List Call) :=
  if s.scaling_enabled then
    (split_move curPos newpos d r speed s.move_split_dist).map
      (execute_moves exec s.move_overlap_time)
  else some [Call.toolheadMove newpos speed]

/-- `PowerCore.pwm_in_callback`: ignore the duty-cycle sample while scaling is
disabled; otherwise feed it to the feedrate PID controller and store the
result in `self.output`. -/
def pwm_in_callback (s : PowerCoreState) (duty now : ℚ) : PowerCoreState :=
  if s.scaling_enabled then
    let r := pidCall s.feedrate_pid duty now
    { s with feedrate_pid := r.1, output := some r.2 }
  else s

/-- `PowerCore.enable_scaling`: reset the feedrate PID controller, then set
the enabled flag. -/
def enable_scaling (s : PowerCoreState) : PowerCoreState :=
  { s with feedrate_pid := resetPID s.feedrate_pid, scaling_enabled := true }

/-- `PowerCore.disable_scaling`: clear the enabled flag only. -/
def disable_scaling (s : PowerCoreState) : PowerCoreState :=
  { s with scaling_enabled := false }

/-- `PowerCore.scale_move`: read `self.output` (failing, as `none`, when the
attribute was never assigned), interpolate it into the feed range, convert
from mm/min to mm/sec and apply it to the move together with the adjustment
acceleration.  The result is the `(speed, accel)` pair passed to
`move.set_speed`. -/
def scale_move (s : PowerCoreState) : Option (ℚ × ℚ) :=
  s.output.map fun o =>
    ((s.min_feedrate + o * (s.max_feedrate - s.min_feedrate)) / 60,
      s.adjustment_accel)

/-- `PowerCore.wire_tension_callback`: ignore the batch while the loop is
disabled; otherwise feed only the last sample to the wire PID controller
(`samples[-1]` raises on an empty batch, embedded as `none`), map the output
to 0..255 by rounding, and command the non-primary actuator. -/
def wire_tension_callback (s : PowerCoreState) (samples : List ℚ)
    (now : ℚ) : Option (PowerCoreState × List Call) :=
  if s.wire_tension_loop_enabled then
    match samples.getLast? with
    | none => none
    | some sample =>
      let r := pidCall s.wire_pid sample now
      let speed : ℚ := (pyRound (r.2 * 255) : ℤ)
      let tgt := if s.sender_is_primary then Actuator.receiver else Actuator.sender
      some ({ s with wire_pid := r.1 }, [Call.setSpeed tgt speed])
  else some (s, [])

/-- `PowerCore.cmd_SET_WIRE_FEED`: with the tension loop disabled both
actuators are set to the requested speed; with the loop enabled only the
primary actuator is. -/
def cmd_SET_WIRE_FEED (s : PowerCoreState) (speed : ℚ) : List Call :=
  if s.wire_tension_loop_enabled then
    if s.sender_is_primary then [Call.setSpeed Actuator.sender speed]
    else [Call.setSpeed Actuator.receiver speed]
  else
    [Call.setSpeed Actuator.sender speed, Call.setSpeed Actuator.receiver speed]

/-- `PowerCore.cmd_ENABLE_WIRE_TENSION_LOOP`: store `bool(ENABLE)` in the
enabled flag and reset the wire PID controller when enabling. -/
def cmd_ENABLE_WIRE_TENSION_LOOP (s : PowerCoreState) (enable : ℤ) : PowerCoreState :=
  let should : Bool := enable != 0
  let s1 := { s with wire_tension_loop_enabled := should }
  if should then { s1 with wire_pid := resetPID s1.wire_pid } else s1

/-- `PowerCore.cmd_set_powercore_feedrates`: `MIN` and `MAX` default to the
stored values; a requested pair with `min > max` is rejected with an error
(`true` in the second component) leaving the state unchanged, otherwise both
stored feedrates are replaced. -/
def cmd_set_powercore_feedrates (s : PowerCoreState)
    (reqMin reqMax : Option ℚ) : PowerCoreState × Bool :=
  let mn := reqMin.getD s.min_feedrate
  let mx := reqMax.getD s.max_feedrate
  if mn > mx then (s, true)
  else ({ s with min_feedrate := mn, max_feedrate := mx }, false)

/-- The predicate recognizing sub-move submissions among emitted calls. -/
def isSubmitMove : Call → Bool
  | Call.toolheadMove _ _ => true
  | _ => false

/-- A sub-move used by the C8 witness: accepted by the witness executor. -/
def subA : SubMove := { start := [0, 0, 0, 0], stop := [1, 0, 0, 0], speed := 50 }

/-- A sub-move used by the C8 witness: rejected by the witness executor. -/
def subB : SubMove := { start := [1, 0, 0, 0], stop := [2, 0, 0, 0], speed := 0 }

/-- A sub-move used by the C8 witness: never reached. -/
def subC : SubMove := { start := [2, 0, 0, 0], stop := [3, 0, 0, 0], speed := 50 }

/-- The C8 witness executor: fails exactly on zero-speed sub-moves. -/
def execW : SubMove → Except String (Option ℚ) :=
  fun m => if m.speed = 0 then Except.error "Move out of range" else Except.ok none

theorem ratFloor_eq (q : ℚ) : ratFloor q = ⌊q⌋ := Rat.floor_def.symm

theorem ratCeil_eq (q : ℚ) : ratCeil q = ⌈q⌉ := by
  rw [ratCeil, ratFloor_eq, Int.floor_neg, neg_neg]

theorem segChain_length (actual : ℚ) (r : List ℚ) (v : ℚ) :
    ∀ (n : ℕ) (s : List ℚ), (segChain actual r v n s).length = n := by
  intro n
  induction n with
  | zero => intro s; rfl
  | succ k ih => intro s; simp [segChain, ih]

theorem setLastEnd_length (e : List ℚ) :
    ∀ l : List SubMove, (setLastEnd e l).length = l.length := by
  intro l
  induction l with
  | nil => rfl
  | cons m rest ih =>
    cases rest with
    | nil => rfl
    | cons m2 rest2 => simpa [setLastEnd] using ih

theorem setLastEnd_ne_nil (e : List ℚ) (l : List SubMove) (h : l ≠ []) :
    setLastEnd e l ≠ [] := by
  intro hc
  have := setLastEnd_length e l
  rw [hc] at this
  exact h (List.eq_nil_of_length_eq_zero this.symm)

theorem setLastEnd_head_start (e : List ℚ) (l : List SubMove) (h : l ≠ [])
    (h2 : setLastEnd e l ≠ []) :
    ((setLastEnd e l).head h2).start = (l.head h).start := by
  cases l with
  | nil => exact absurd rfl h
  | cons m rest => cases rest <;> rfl

theorem setLastEnd_getLast_stop (e : List ℚ) :
    ∀ (l : List SubMove) (h : setLastEnd e l ≠ []),
      ((setLastEnd e l).getLast h).stop = e := by
  intro l
  induction l with
  | nil => intro h; exact absurd rfl h
  | cons m rest ih =>
    intro h
    cases rest with
    | nil => rfl
    | cons m2 rest2 =>
      have hne : setLastEnd e (m2 :: rest2) ≠ [] :=
        setLastEnd_ne_nil e (m2 :: rest2) (by simp)
      show ((m :: setLastEnd e (m2 :: rest2)).getLast h).stop = e
      rw [List.getLast_cons hne]
      exact ih hne

theorem segChain_chain' (actual : ℚ) (r : List ℚ) (v : ℚ) :
    ∀ (n : ℕ) (s : List ℚ),
      List.Chain' (fun a b => b.start = a.stop) (segChain actual r v n s) := by
  intro n
  induction n with
  | zero => intro s; simp [segChain]
  | succ k ih =>
    intro s
    rw [segChain]
    refine List.chain'_cons'.mpr ⟨?_, ih (stepEnd actual r s)⟩
    intro b hb
    cases k with
    | zero => simp [segChain] at hb
    | succ k2 =>
      rw [segChain] at hb
      simp only [List.head?_cons, Option.mem_def, Option.some.injEq] at hb
      rw [← hb]

theorem setLastEnd_chain' (e : List ℚ) :
    ∀ l : List SubMove, List.Chain' (fun a b => b.start = a.stop) l →
      List.Chain' (fun a b => b.start = a.stop) (setLastEnd e l) := by
  intro l
  induction l with
  | nil => intro _; simp [setLastEnd]
  | cons m rest ih =>
    intro h
    cases rest with
    | nil => simp [setLastEnd]
    | cons m2 rest2 =>
      have h1 := (List.chain'_cons.mp h).1
      have h2 := (List.chain'_cons.mp h).2
      rw [show setLastEnd e (m :: m2 :: rest2) = m :: setLastEnd e (m2 :: rest2) from rfl]
      refine List.chain'_cons'.mpr ⟨?_, ih h2⟩
      intro b hb
      cases rest2 with
      | nil =>
        simp only [setLastEnd, List.head?_cons, Option.mem_def, Option.some.injEq] at hb
        rw [← hb]
        exact h1
      | cons m3 rest3 =>
        simp only [setLastEnd, List.head?_cons, Option.mem_def, Option.some.injEq] at hb
        rw [← hb]
        exact h1

theorem segChain_speed (actual : ℚ) (r : List ℚ) (v : ℚ) :
    ∀ (n : ℕ) (s : List ℚ) (m : SubMove), m ∈ segChain actual r v n s →
      m.speed = v := by
  intro n
  induction n with
  | zero => intro s m hm; simp [segChain] at hm
  | succ k ih =>
    intro s m hm
    rw [segChain] at hm
    rcases List.mem_cons.mp hm with h | h
    · rw [h]
    · exact ih _ m h

theorem setLastEnd_speed (e : List ℚ) (v : ℚ) :
    ∀ l : List SubMove, (∀ m ∈ l, m.speed = v) →
      ∀ m ∈ setLastEnd e l, m.speed = v := by
  intro l
  induction l with
  | nil => intro _ m hm; simp [setLastEnd] at hm
  | cons m0 rest ih =>
    intro h m hm
    cases rest with
    | nil =>
      simp only [setLastEnd, List.mem_singleton] at hm
      rw [hm]
      exact h m0 (by simp)
    | cons m2 rest2 =>
      rw [show setLastEnd e (m0 :: m2 :: rest2) = m0 :: setLastEnd e (m2 :: rest2) from rfl] at hm
      rcases List.mem_cons.mp hm with hm | hm
      · rw [hm]; exact h m0 (by simp)
      · exact ih (fun x hx => h x (List.mem_cons_of_mem _ hx)) m hm

theorem setLastEnd_dropLast (e : List ℚ) :
    ∀ l : List SubMove, (setLastEnd e l).dropLast = l.dropLast := by
  intro l
  induction l with
  | nil => rfl
  | cons m rest ih =>
    cases rest with
    | nil => rfl
    | cons m2 rest2 =>
      rw [show setLastEnd e (m :: m2 :: rest2) = m :: setLastEnd e (m2 :: rest2) from rfl]
      have hne : setLastEnd e (m2 :: rest2) ≠ [] :=
        setLastEnd_ne_nil e (m2 :: rest2) (by simp)
      rcases List.exists_cons_of_ne_nil hne with ⟨a, as, ha⟩
      rw [ha, List.dropLast_cons₂, ← ha, ih, List.dropLast_cons₂]

theorem stepEnd_coords (actual : ℚ) :
    ∀ (s r : List ℚ) (c : ℚ), c ∈ stepEnd actual r s →
      ∃ k : ℤ, c = (k : ℚ) / 1000 := by
  intro s
  induction s with
  | nil => intro r c hc; simp [stepEnd] at hc
  | cons a s2 ih =>
    intro r c hc
    cases r with
    | nil => simp [stepEnd] at hc
    | cons b r2 =>
      simp only [stepEnd, List.zipWith_cons_cons, List.mem_cons] at hc
      rcases hc with hc | hc
      · exact ⟨pyRound ((a + actual * b) * 1000), hc⟩
      · exact ih r2 c hc

theorem segChain_stop_form (actual : ℚ) (r : List ℚ) (v : ℚ) :
    ∀ (n : ℕ) (s : List ℚ) (m : SubMove), m ∈ segChain actual r v n s →
      ∃ s0, m.stop = stepEnd actual r s0 := by
  intro n
  induction n with
  | zero => intro s m hm; simp [segChain] at hm
  | succ k ih =>
    intro s m hm
    rw [segChain] at hm
    rcases List.mem_cons.mp hm with h | h
    · exact ⟨s, by rw [h]⟩
    · exact ih _ m h

theorem split_move_count (startPos endPos : List ℚ) (d : ℚ) (r : List ℚ)
    (speed L : ℚ) (hd : 0 < d) (hL : 0 < L) :
    ∃ l, split_move startPos endPos d r speed L = some l ∧
      l.length = (ratCeil (d / L)).toNat ∧ 1 ≤ l.length := by
  have hpos : (0 : ℤ) < ratCeil (d / L) := by
    rw [ratCeil_eq]
    exact Int.ceil_pos.mpr (div_pos hd hL)
  refine ⟨setLastEnd endPos
    (segChain (d / (ratCeil (d / L) : ℚ)) r speed (1 + (ratCeil (d / L) - 1).toNat) startPos),
    ?_, ?_, ?_⟩
  · rw [split_move]
    simp only [Int.ne_of_gt hpos, if_false]
  · rw [setLastEnd_length, segChain_length]
    omega
  · rw [setLastEnd_length, segChain_length]
    omega

theorem segChain_head_start (actual : ℚ) (r : List ℚ) (v : ℚ) (k : ℕ)
    (s : List ℚ) (h : segChain actual r v (k + 1) s ≠ []) :
    ((segChain actual r v (k + 1) s).head h).start = s := rfl

/-- C1: evaluation of `split_move` at a zero-displacement move (current
position equal to the requested position, so the `Move` data is `d = 0` and
`axes_r = [0, 0, 0, 0]`), with the default `move_split_dist` of 0.1.  The
source computes `total_num_segments = math.ceil(0 / 0.1) = 0` and then raises
`ZeroDivisionError` at `move_dist / total_num_segments` (embedded as `none`),
instead of producing the single segment the claim requires. -/
theorem split_move_zero_displacement :
    split_move [0, 0, 0, 0] [0, 0, 0, 0] 0 [0, 0, 0, 0] 50 (1/10) = none := by
  simp only [split_move]
  norm_num [ratCeil, ratFloor]

/-- C2: for every move with positive displacement and positive target segment
length, `split_move` returns a list of descriptors whose first start is the
original start position, whose last end is the exact requested end position,
in which consecutive descriptors share an endpoint, every descriptor carries
the commanded speed, and every intermediate end coordinate is a multiple of
1/1000 (rounded to three decimal places). -/
theorem split_move_reconstructs (startPos endPos : List ℚ) (d : ℚ) (r : List ℚ)
    (speed L : ℚ) (hd : 0 < d) (hL : 0 < L) :
    ∃ l, split_move startPos endPos d r speed L = some l ∧
      ∃ h : l ≠ [],
        (l.head h).start = startPos ∧
        (l.getLast h).stop = endPos ∧
        List.Chain' (fun a b => b.start = a.stop) l ∧
        (∀ m ∈ l, m.speed = speed) ∧
        (∀ m ∈ l.dropLast, ∀ c ∈ m.stop, ∃ k : ℤ, c = (k : ℚ) / 1000) := by
  have hpos : (0 : ℤ) < ratCeil (d / L) := by
    rw [ratCeil_eq]
    exact Int.ceil_pos.mpr (div_pos hd hL)
  set n : ℤ := ratCeil (d / L) with hn
  set actual : ℚ := d / (n : ℚ) with hactual
  set count : ℕ := 1 + (n - 1).toNat with hcount
  set inner : List SubMove := segChain actual r speed count startPos with hinner
  have hinner_ne : inner ≠ [] := by
    intro hc
    have := segChain_length actual r speed count startPos
    rw [← hinner, hc] at this
    simp at this
    omega
  refine ⟨setLastEnd endPos inner, ?_, ?_⟩
  · rw [split_move]
    simp only [← hn, Int.ne_of_gt hpos, if_false, ← hactual, ← hcount, ← hinner]
  · have hne := setLastEnd_ne_nil endPos inner hinner_ne
    refine ⟨hne, ?_, ?_, ?_, ?_, ?_⟩
    · rw [setLastEnd_head_start endPos inner hinner_ne hne]
      obtain ⟨k, hk⟩ : ∃ k, count = k + 1 := ⟨(n - 1).toNat, by omega⟩
      revert hinner_ne
      rw [hinner, hk]
      intro hinner_ne
      exact segChain_head_start actual r speed k startPos hinner_ne
    · exact setLastEnd_getLast_stop endPos inner hne
    · exact setLastEnd_chain' endPos inner (segChain_chain' actual r speed count startPos)
    · exact setLastEnd_speed endPos speed inner
        (fun m hm => segChain_speed actual r speed count startPos m hm)
    · intro m hm c hc
      rw [setLastEnd_dropLast] at hm
      have hmem : m ∈ inner := List.dropLast_subset inner hm
      obtain ⟨s0, hs0⟩ := segChain_stop_form actual r speed count startPos m hmem
      rw [hs0] at hc
      exact stepEnd_coords actual s0 r c hc

/-- C2 witness: a concrete 3-4-5 move of displacement 5 split with target
segment length 2. -/
theorem split_move_reconstructs_witness :
    (0 : ℚ) < 5 ∧ (0 : ℚ) < 2 ∧
    ∃ l, split_move [0, 0, 0, 0] [3, 4, 0, 0] 5 [3/5, 4/5, 0, 0] 50 2 = some l ∧
      ∃ h : l ≠ [],
        (l.head h).start = [0, 0, 0, 0] ∧
        (l.getLast h).stop = [3, 4, 0, 0] ∧
        List.Chain' (fun a b => b.start = a.stop) l ∧
        (∀ m ∈ l, m.speed = 50) ∧
        (∀ m ∈ l.dropLast, ∀ c ∈ m.stop, ∃ k : ℤ, c = (k : ℚ) / 1000) :=
  ⟨by norm_num, by norm_num,
    split_move_reconstructs [0, 0, 0, 0] [3, 4, 0, 0] 5 [3/5, 4/5, 0, 0] 50 2
      (by norm_num) (by norm_num)⟩

/-- C3 counterexample: at the default configuration, the state built by
`PowerCore.__init__` refutes the claim that both enabled flags are false and
the stored scaling output is 0: line 121 of the source sets
`wire_tension_loop_enabled = True`, and `self.output` is never assigned in
the constructor. -/
theorem initState_claim_false :
    ¬ ((initState cfg0).scaling_enabled = false ∧
       (initState cfg0).wire_tension_loop_enabled = false ∧
       (initState cfg0).output = some 0) := by
  intro h
  simp [initState, cfg0] at h

/-- C3 amended: immediately after construction, `scaling_enabled` is false,
the wire tension loop enabled flag is true, and no scaling output value is
stored at all (reading `self.output` would fail), for every configuration. -/
theorem initState_fields (cfg : Config) :
    (initState cfg).scaling_enabled = false ∧
    (initState cfg).wire_tension_loop_enabled = true ∧
    (initState cfg).output = none :=
  ⟨rfl, rfl, rfl⟩

/-- C4: the set-feed-range command rejects a requested pair with `min > max`,
reporting an error and leaving the whole state unchanged; otherwise it stores
both requested values; and starting from a state satisfying the invariant
`min_feedrate ≤ max_feedrate`, the invariant holds after every invocation. -/
theorem cmd_set_powercore_feedrates_spec (s : PowerCoreState)
    (reqMin reqMax : Option ℚ) (hinv : s.min_feedrate ≤ s.max_feedrate) :
    (reqMin.getD s.min_feedrate > reqMax.getD s.max_feedrate →
      cmd_set_powercore_feedrates s reqMin reqMax = (s, true)) ∧
    (¬ reqMin.getD s.min_feedrate > reqMax.getD s.max_feedrate →
      cmd_set_powercore_feedrates s reqMin reqMax =
        ({ s with min_feedrate := reqMin.getD s.min_feedrate,
                  max_feedrate := reqMax.getD s.max_feedrate }, false)) ∧
    (cmd_set_powercore_feedrates s reqMin reqMax).1.min_feedrate ≤
      (cmd_set_powercore_feedrates s reqMin reqMax).1.max_feedrate := by
  by_cases hgt : reqMin.getD s.min_feedrate > reqMax.getD s.max_feedrate
  · refine ⟨fun _ => ?_, fun h => absurd hgt h, ?_⟩
    · simp [cmd_set_powercore_feedrates, hgt]
    · simp [cmd_set_powercore_feedrates, hgt]
      exact hinv
  · refine ⟨fun h => absurd h hgt, fun _ => ?_, ?_⟩
    · simp [cmd_set_powercore_feedrates, hgt]
    · simp [cmd_set_powercore_feedrates, hgt]
      exact le_of_not_lt hgt

/-- C4 witness: at the default state (feed range (6, 120)), requesting
`MIN=200` with `MAX` left at its default is rejected with no state change. -/
theorem cmd_set_powercore_feedrates_spec_witness :
    (initState cfg0).min_feedrate ≤ (initState cfg0).max_feedrate ∧
    cmd_set_powercore_feedrates (initState cfg0) (some 200) none =
      (initState cfg0, true) :=
  ⟨by norm_num [initState, cfg0],
    (cmd_set_powercore_feedrates_spec (initState cfg0) (some 200) none
      (by norm_num [initState, cfg0])).1 (by norm_num [initState, cfg0])⟩

/-- C5: enabling either loop resets its PID controller: `enable_scaling`
resets the feedrate controller and sets the flag, the enable command with a
non-zero `ENABLE` resets the wire controller and sets the flag; a reset
controller keeps its setpoint, gains and output bounds, equals a freshly
constructed controller with the same parameters, and its next update behaves
identically to that fresh controller. -/
theorem enable_resets_pid (s : PowerCoreState) :
    (enable_scaling s).scaling_enabled = true ∧
    (enable_scaling s).feedrate_pid = resetPID s.feedrate_pid ∧
    (∀ e : ℤ, e ≠ 0 →
      (cmd_ENABLE_WIRE_TENSION_LOOP s e).wire_tension_loop_enabled = true ∧
      (cmd_ENABLE_WIRE_TENSION_LOOP s e).wire_pid = resetPID s.wire_pid) ∧
    (∀ p : PIDState, (resetPID p).setpoint = p.setpoint ∧ (resetPID p).kp = p.kp ∧
      (resetPID p).ki = p.ki ∧ (resetPID p).kd = p.kd ∧
      (resetPID p).outMin = p.outMin ∧ (resetPID p).outMax = p.outMax) ∧
    (∀ p : PIDState, resetPID p =
      mkPID p.kp p.ki p.kd p.setpoint p.outMin p.outMax p.sampleTime) ∧
    (∀ (p : PIDState) (sample now : ℚ), pidCall (resetPID p) sample now =
      pidCall (mkPID p.kp p.ki p.kd p.setpoint p.outMin p.outMax p.sampleTime)
        sample now) := by
  refine ⟨rfl, rfl, ?_, fun p => ⟨rfl, rfl, rfl, rfl, rfl, rfl⟩,
    fun p => rfl, fun p sample now => rfl⟩
  intro e he
  have hb : (e != 0) = true := by simpa [bne_iff_ne] using he
  constructor <;> simp [cmd_ENABLE_WIRE_TENSION_LOOP, hb]

/-- C5 witness: the enable command with `ENABLE=1` at the default state. -/
theorem enable_resets_pid_witness :
    (1 : ℤ) ≠ 0 ∧
    (cmd_ENABLE_WIRE_TENSION_LOOP (initState cfg0) 1).wire_pid =
      resetPID (initState cfg0).wire_pid :=
  ⟨by decide, ((enable_resets_pid (initState cfg0)).2.2.1 1 (by decide)).2⟩

/-- C6: while scaling is disabled, a move request is forwarded to the
toolhead as exactly one unmodified call, independently of the stored output
value, and an incoming duty-cycle sample leaves the state (output and PID
state included) completely unchanged. -/
theorem move_passthrough (s : PowerCoreState) (curPos newpos : List ℚ)
    (d : ℚ) (r : List ℚ) (exec : SubMove → Except String (Option ℚ))
    (speed : ℚ) (hdis : s.scaling_enabled = false) :
    move s curPos d r exec newpos speed =
      some [Call.toolheadMove newpos speed] ∧
    (∀ o' : Option ℚ, move { s with output := o' } curPos d r exec newpos speed =
      some [Call.toolheadMove newpos speed]) ∧
    (∀ duty now : ℚ, pwm_in_callback s duty now = s) := by
  refine ⟨?_, ?_, ?_⟩
  · simp [move, hdis]
  · intro o'
    simp [move, hdis]
  · intro duty now
    simp [pwm_in_callback, hdis]

/-- C6 witness: the default (disabled) state forwards a concrete move as one
call. -/
theorem move_passthrough_witness :
    (initState cfg0).scaling_enabled = false ∧
    move (initState cfg0) [0, 0, 0, 0] 5 [1, 0, 0, 0]
        (fun _ => Except.ok none) [5, 0, 0, 0] 50 =
      some [Call.toolheadMove [5, 0, 0, 0] 50] :=
  ⟨rfl, (move_passthrough (initState cfg0) [0, 0, 0, 0] [5, 0, 0, 0] 5
    [1, 0, 0, 0] (fun _ => Except.ok none) 50 rfl).1⟩

theorem pidCompute_bounds (p : PIDState) (sample now : ℚ)
    (h : p.outMin ≤ p.outMax) :
    p.outMin ≤ (pidCompute p sample now).2 ∧
      (pidCompute p sample now).2 ≤ p.outMax := by
  simp only [pidCompute, clamp]
  exact ⟨le_max_left _ _, max_le h (min_le_right _ _)⟩

theorem pidCall_bounds (p : PIDState) (sample now : ℚ)
    (h : p.outMin ≤ p.outMax)
    (hlast : ∀ v, p.lastOutput = some v → p.outMin ≤ v ∧ v ≤ p.outMax) :
    p.outMin ≤ (pidCall p sample now).2 ∧ (pidCall p sample now).2 ≤ p.outMax := by
  cases ht : p.lastTime with
  | none =>
    simp only [pidCall, ht]
    exact pidCompute_bounds p sample now h
  | some t =>
    cases ho : p.lastOutput with
    | none =>
      simp only [pidCall, ht, ho]
      exact pidCompute_bounds p sample now h
    | some o =>
      simp only [pidCall, ht, ho]
      split
      · exact hlast o ho
      · exact pidCompute_bounds p sample now h

/-- C7: a load-cell batch arriving while the tension loop is enabled feeds
only its last sample to the wire PID controller; the output, which lies in
[0, 1] under the configured (0, 1) bounds, is mapped to `round(output * 255)`
and commanded to the non-primary actuator only (the receiver when the sender
is primary, the sender otherwise); an output of 1 maps to 255. -/
theorem wire_tension_routing (s : PowerCoreState) (samples : List ℚ)
    (now : ℚ) (hen : s.wire_tension_loop_enabled = true) (hne : samples ≠ [])
    (hlo : s.wire_pid.outMin = 0) (hhi : s.wire_pid.outMax = 1)
    (hlast : ∀ v, s.wire_pid.lastOutput = some v → 0 ≤ v ∧ v ≤ 1) :
    ∃ sample, samples.getLast? = some sample ∧
      wire_tension_callback s samples now =
        some ({ s with wire_pid := (pidCall s.wire_pid sample now).1 },
          [Call.setSpeed
            (if s.sender_is_primary then Actuator.receiver else Actuator.sender)
            ((pyRound ((pidCall s.wire_pid sample now).2 * 255) : ℤ) : ℚ)]) ∧
      0 ≤ (pidCall s.wire_pid sample now).2 ∧
      (pidCall s.wire_pid sample now).2 ≤ 1 ∧
      ((pidCall s.wire_pid sample now).2 = 1 →
        pyRound ((pidCall s.wire_pid sample now).2 * 255) = 255) := by
  obtain ⟨sample, hs⟩ : ∃ sample, samples.getLast? = some sample := by
    cases hgl : samples.getLast? with
    | none => exact absurd (List.getLast?_eq_none_iff.mp hgl) hne
    | some v => exact ⟨v, rfl⟩
  have hbounds := pidCall_bounds s.wire_pid sample now
    (by rw [hlo, hhi]; norm_num)
    (by intro v hv; rw [hlo, hhi]; exact hlast v hv)
  rw [hlo] at hbounds
  rw [hhi] at hbounds
  refine ⟨sample, hs, ?_, hbounds.1, hbounds.2, ?_⟩
  · simp [wire_tension_callback, hen, hs]
  · intro h1
    rw [h1]
    norm_num [pyRound, ratFloor]

/-- C7 witness: the default state (loop enabled, sender primary, fresh wire
PID with bounds (0, 1)) on the one-sample batch `[1/2]`. -/
theorem wire_tension_routing_witness :
    (initState cfg0).wire_tension_loop_enabled = true ∧
    ([(1 : ℚ)/2] : List ℚ) ≠ [] ∧
    ∃ sample, ([(1 : ℚ)/2] : List ℚ).getLast? = some sample ∧
      wire_tension_callback (initState cfg0) [(1 : ℚ)/2] 7 =
        some ({ initState cfg0 with
            wire_pid := (pidCall (initState cfg0).wire_pid sample 7).1 },
          [Call.setSpeed
            (if (initState cfg0).sender_is_primary then Actuator.receiver
              else Actuator.sender)
            ((pyRound ((pidCall (initState cfg0).wire_pid sample 7).2 * 255) : ℤ) : ℚ)]) ∧
      0 ≤ (pidCall (initState cfg0).wire_pid sample 7).2 ∧
      (pidCall (initState cfg0).wire_pid sample 7).2 ≤ 1 ∧
      ((pidCall (initState cfg0).wire_pid sample 7).2 = 1 →
        pyRound ((pidCall (initState cfg0).wire_pid sample 7).2 * 255) = 255) :=
  ⟨rfl, by simp,
    wire_tension_routing (initState cfg0) [(1 : ℚ)/2] 7 rfl (by simp) rfl rfl
      (by
        intro v hv
        rw [show (initState cfg0).wire_pid.lastOutput = none from rfl] at hv
        cases hv)⟩

theorem submitCalls_countP (overlap : ℚ) (m : SubMove) (nextT : Option ℚ) :
    (submitCalls overlap m nextT).countP isSubmitMove = 1 := by
  cases nextT with
  | none => rfl
  | some t =>
    simp only [submitCalls]
    split <;> rfl

/-- C8: when the executor fails with a command error on one sub-move after
succeeding on all earlier ones, `execute_moves` emits exactly the calls of
the already-executed prefix followed by the operator error report and the
`gcode:command_error` event: the failing and all later sub-moves are
abandoned, nothing is rolled back, and each prefix sub-move was submitted
exactly once (no retries). -/
theorem okWake_ok (t : Option ℚ) : okWake (Except.ok t) = t := rfl

theorem execute_moves_cons (exec : SubMove → Except String (Option ℚ))
    (overlap : ℚ) (m : SubMove) (rest : List SubMove) :
    execute_moves exec overlap (m :: rest) =
      match exec m with
      | Except.ok nextT =>
        submitCalls overlap m nextT ++ execute_moves exec overlap rest
      | Except.error e =>
        [Call.respondError e, Call.sendEvent "gcode:command_error"] := rfl

theorem execute_moves_abort (exec : SubMove → Except String (Option ℚ))
    (overlap : ℚ) (pre post : List SubMove) (bad : SubMove) (e : String)
    (hpre : ∀ m ∈ pre, ∃ t, exec m = Except.ok t)
    (hbad : exec bad = Except.error e) :
    execute_moves exec overlap (pre ++ bad :: post) =
      (pre.flatMap fun m => submitCalls overlap m (okWake (exec m))) ++
        [Call.respondError e, Call.sendEvent "gcode:command_error"] ∧
    (execute_moves exec overlap (pre ++ bad :: post)).countP isSubmitMove =
      pre.length := by
  have hmain : execute_moves exec overlap (pre ++ bad :: post) =
      (pre.flatMap fun m => submitCalls overlap m (okWake (exec m))) ++
        [Call.respondError e, Call.sendEvent "gcode:command_error"] := by
    induction pre with
    | nil => simp [execute_moves_cons, hbad]
    | cons m rest ih =>
      obtain ⟨t, ht⟩ := hpre m (by simp)
      have ih2 := ih (fun x hx => hpre x (List.mem_cons_of_mem _ hx))
      simp only [List.cons_append, execute_moves_cons, ht, List.flatMap_cons,
        okWake_ok, List.append_assoc]
      rw [ih2]
  refine ⟨hmain, ?_⟩
  rw [hmain, List.countP_append]
  have hbindcount : ∀ l : List SubMove,
      (l.flatMap fun m => submitCalls overlap m (okWake (exec m))).countP
        isSubmitMove = l.length := by
    intro l
    induction l with
    | nil => rfl
    | cons m rest ih =>
      rw [List.flatMap_cons, List.countP_append, ih, submitCalls_countP]
      simp [Nat.add_comm]
  rw [hbindcount]
  rfl

/-- C8 witness: a three-piece segmented move whose second piece fails. -/
theorem execute_moves_abort_witness :
    (∀ m ∈ [subA], ∃ t, execW m = Except.ok t) ∧
    execW subB = Except.error "Move out of range" ∧
    execute_moves execW (1/1000) ([subA] ++ subB :: [subC]) =
      ([subA].flatMap fun m => submitCalls (1/1000) m (okWake (execW m))) ++
        [Call.respondError "Move out of range",
          Call.sendEvent "gcode:command_error"] ∧
    (execute_moves execW (1/1000) ([subA] ++ subB :: [subC])).countP
      isSubmitMove = [subA].length := by
  have h1 : ∀ m ∈ [subA], ∃ t, execW m = Except.ok t := by
    intro m hm
    rw [List.mem_singleton] at hm
    subst hm
    exact ⟨none, by norm_num [execW, subA]⟩
  have h2 : execW subB = Except.error "Move out of range" := by
    norm_num [execW, subB]
  have h3 := execute_moves_abort execW (1/1000) [subA] [subC] subB
    "Move out of range" h1 h2
  exact ⟨h1, h2, h3.1, h3.2⟩

/-- C9: the direct set-wire-feed command drives both actuators with the
requested speed while the tension loop is disabled, and only the primary
actuator while the loop is enabled. -/
theorem set_wire_feed_routing (s : PowerCoreState) (speed : ℚ) :
    (s.wire_tension_loop_enabled = false →
      cmd_SET_WIRE_FEED s speed =
        [Call.setSpeed Actuator.sender speed,
          Call.setSpeed Actuator.receiver speed]) ∧
    (s.wire_tension_loop_enabled = true →
      cmd_SET_WIRE_FEED s speed =
        [Call.setSpeed
          (if s.sender_is_primary then Actuator.sender else Actuator.receiver)
          speed]) := by
  constructor
  · intro h
    simp [cmd_SET_WIRE_FEED, h]
  · intro h
    cases hp : s.sender_is_primary <;> simp [cmd_SET_WIRE_FEED, h, hp]

/-- C9 witness: after disabling the tension loop at the default state, a
direct speed-40 command reaches both actuators. -/
theorem set_wire_feed_routing_witness :
    (cmd_ENABLE_WIRE_TENSION_LOOP (initState cfg0) 0).wire_tension_loop_enabled
      = false ∧
    cmd_SET_WIRE_FEED (cmd_ENABLE_WIRE_TENSION_LOOP (initState cfg0) 0) 40 =
      [Call.setSpeed Actuator.sender 40, Call.setSpeed Actuator.receiver 40] :=
  ⟨rfl,
    (set_wire_feed_routing (cmd_ENABLE_WIRE_TENSION_LOOP (initState cfg0) 0)
      40).1 rfl⟩

/-- C10: `enable_scaling` and `disable_scaling` never touch the stored
output: enabling changes only the enabled flag and the feedrate PID state,
disabling changes only the flag; the output surviving a disable/re-enable
cycle is exactly the previous value; after construction no output is stored,
and scaling a move with no stored output fails, while with a stored output it
reads exactly that value. -/
theorem scaling_toggle_frame (s : PowerCoreState) :
    (enable_scaling s).output = s.output ∧
    (disable_scaling s).output = s.output ∧
    enable_scaling s =
      { s with scaling_enabled := true,
               feedrate_pid := resetPID s.feedrate_pid } ∧
    disable_scaling s = { s with scaling_enabled := false } ∧
    (enable_scaling (disable_scaling s)).output = s.output ∧
    (∀ cfg : Config, (initState cfg).output = none) ∧
    (s.output = none → scale_move s = none) ∧
    (∀ o, s.output = some o → scale_move s =
      some ((s.min_feedrate + o * (s.max_feedrate - s.min_feedrate)) / 60,
        s.adjustment_accel)) := by
  refine ⟨rfl, rfl, rfl, rfl, rfl, fun _ => rfl, ?_, ?_⟩
  · intro h
    simp [scale_move, h]
  · intro o h
    simp [scale_move, h]

/-- C10 witness: reading the scaling output right after construction fails. -/
theorem scaling_toggle_frame_witness :
    (initState cfg0).output = none ∧ scale_move (initState cfg0) = none :=
  ⟨rfl, (scaling_toggle_frame (initState cfg0)).2.2.2.2.2.2.1 rfl⟩

example : pyRound (255 : ℚ) = 255 := by norm_num [pyRound, ratFloor]
example : pyRound (5/2 : ℚ) = 2 := by norm_num [pyRound, ratFloor]
example : pyRound (7/2 : ℚ) = 4 := by norm_num [pyRound, ratFloor]
example : round3 (12345/10000 : ℚ) = 1234/1000 := by
  norm_num [round3, pyRound, ratFloor]
example : ratCeil ((0 : ℚ) / (1/10)) = 0 := by norm_num [ratCeil, ratFloor]
example : ratCeil ((5 : ℚ) / 2) = 3 := by norm_num [ratCeil, ratFloor]
example : (initState cfg0).output = none := rfl

end PowerCore
